import Mathlib

/-!
Verification of `src/simple_mud.py`, a minimal single-player text dungeon
crawler.  The source file in the repository contains two revisions of the
program interleaved by unresolved merge-conflict markers; this development
embeds the more featureful incoming-branch revision (the one that accepts
both `quit` and `exit`, has a `stats` command, counts turns so that the enemy
phase is skipped on the very first turn, and lets a non-adjacent enemy wander
with a coin flip).  The spec itself records the revision differences as an
open design question, and every claim under verification names behaviour
that is present in this revision.

Modelling choices, each noted again at the definition it concerns:
- Rooms are identified by their key in the dictionary built by
  `Game._build_rooms` ("entrance", "hall", "armory", "library").  In Python a
  room is a mutable object compared by field equality, but the four rooms
  have pairwise distinct names and the graph is never modified after
  construction, so comparison of the identifying key is an exact model.
- Hit points and attack values are unbounded integers, as in Python.
- Printing is modelled by returning the list of printed strings.  Colour
  codes are dropped: without the optional `colorama` dependency every
  `Fore`/`Style` attribute is the empty string.
- Randomness (`random.random() < 0.5` and `random.choice` over a room's
  neighbor list) is modelled by an oracle supplying, for each enemy index, a
  coin flip and a choice index; theorems quantify over all oracles.
- `input()` is modelled by a list of lines; exhausting the list corresponds
  to the end-of-input condition, on which the Python `input` raises an
  uncaught `EOFError`.
-/

namespace SimpleMud

/-- Room graph built by `Game._build_rooms`: for each room key, the
association list of (direction, destination room key) entries, in the
insertion order of the Python dict.  Any key other than the four rooms that
exist is mapped to the empty list (no such room is ever constructed). -/
def roomNeighbors : String → List (String × String)
  | "entrance" => [("north", "hall")]
  | "hall" => [("south", "entrance"), ("east", "armory"), ("west", "library")]
  | "armory" => [("west", "hall")]
  | "library" => [("east", "hall")]
  | _ => []

/-- Dictionary lookup `room.neighbors[direction]` (with `direction in
room.neighbors` deciding between the two branches of `_move_player`). -/
def neighbor (room dir : String) : Option String :=
  List.lookup dir (roomNeighbors room)

/-- Display name of a room (`Room.name`), from `Game._build_rooms`.  Only the
four listed keys ever exist. -/
def roomName : String → String
  | "entrance" => "Entrance"
  | "hall" => "Hall"
  | "armory" => "Armory"
  | "library" => "Library"
  | _ => ""

/-- Description text of a room, from `Game._build_rooms`.  `_describe_room`
prints it through `textwrap.wrap(description, width=60)`, which only splits
the fixed text into display lines; the model emits the description as a
single line since no claim concerns line wrapping. -/
def roomDescription : String → String
  | "entrance" => "You stand at the moss-covered mouth of an ancient dungeon. A dark hall beckons to the north."
  | "hall" => "A damp corridor stretches before you. Faint echoes bounce along the stone walls."
  | "armory" => "Rusty blades and dented armour lie scattered in disarray. The air smells of old metal."
  | "library" => "Dusty tomes fill towering shelves, their wisdom long forgotten."
  | _ => ""

/-- The player's avatar (`Character` dataclass).  `room` holds the key of the
current room; in the source it is `Room | None` but it is assigned a room at
creation and never cleared. -/
structure Character where
  name : String
  role : String
  hp : Int
  atk : Int
  room : String
deriving DecidableEq, Repr

/-- A hostile creature (`Enemy` dataclass). -/
structure Enemy where
  name : String
  hp : Int
  atk : Int
  room : String
deriving DecidableEq, Repr

/-- `Enemy.is_alive`: hit points strictly positive. -/
def Enemy.isAlive (e : Enemy) : Bool := decide (0 < e.hp)

/-- Mutable session state of `Game`: the player, the enemy list (dead
enemies are retained, never removed), and the turn counter of the embedded
revision (`self.turn`, starting at 0). -/
structure GameState where
  player : Character
  enemies : List Enemy
  turn : Nat
deriving DecidableEq, Repr

/-- Initial enemy list from `Game._spawn_enemies`. -/
def spawnEnemies : List Enemy :=
  [{ name := "Goblin", hp := 5, atk := 2, room := "hall" },
   { name := "Skeleton", hp := 5, atk := 2, room := "armory" }]

/-- Filter condition of `Game._living_enemies_in_room`:
`e.room == room and e.is_alive()`. -/
def isTarget (room : String) (e : Enemy) : Bool :=
  e.room == room && e.isAlive

/-- `Game._living_enemies_in_room`: the living enemies in `room`, in
enemy-list iteration order. -/
def livingEnemiesInRoom (es : List Enemy) (room : String) : List Enemy :=
  es.filter (isTarget room)

/-- Lines printed by `Game._describe_room`: the room header, the description
(see `roomDescription` for the wrapping note), the exits line when the room
has neighbors, and one line per living enemy present. -/
def describeRoom (g : GameState) : List String :=
  let r := g.player.room
  ("== " ++ roomName r ++ " ==") ::
    roomDescription r ::
      ((if (roomNeighbors r).isEmpty then []
        else ["Exits: " ++ String.intercalate ", " ((roomNeighbors r).map Prod.fst)]) ++
        (livingEnemiesInRoom g.enemies r).map (fun e => "A " ++ e.name ++ " is here!"))

/-- `Game._move_player`: follow the neighbor edge when the direction is a key
of the current room's neighbor mapping, else print a failure message. -/
def movePlayer (g : GameState) (dir : String) : GameState × List String :=
  match neighbor g.player.room dir with
  | some r =>
      ({ g with player := { g.player with room := r } }, ["You move " ++ dir ++ "."])
  | none => (g, ["You can't go that way."])

/-- Core of `Game._attack`.  The source computes
`enemies = self._living_enemies_in_room(self.player.room)` and, when that
list is non-empty, mutates `enemies[0]` — the first enemy of `self.enemies`
satisfying the filter, aliased into the main list.  This recursion hits
exactly that first satisfying entry and leaves every other entry unchanged;
when no entry satisfies the filter it prints the no-target message. -/
def attackEnemies (atk : Int) (room : String) : List Enemy → List Enemy × List String
  | [] => ([], ["No enemy to attack."])
  | e :: rest =>
      if isTarget room e then
        ({ e with hp := e.hp - atk } :: rest,
          ("You hit the " ++ e.name ++ "! It has " ++ toString (e.hp - atk) ++ " hp left.") ::
            (if e.hp - atk ≤ 0 then ["The " ++ e.name ++ " is defeated!"] else []))
      else
        let r := attackEnemies atk room rest
        (e :: r.1, r.2)

/-- `Game._attack` on the session state. -/
def attack (g : GameState) : GameState × List String :=
  let r := attackEnemies g.player.atk g.player.room g.enemies
  ({ g with enemies := r.1 }, r.2)

/-- Lines printed by `Game._show_stats`. -/
def statsLines (p : Character) : List String :=
  [p.name ++ " the " ++ p.role,
   "HP: " ++ toString p.hp ++ "  ATK: " ++ toString p.atk]

/-- `Enemy.move`: relocate to a random neighbor of the current room when it
has any, else stay.  `pick` is the oracle's choice index into
`list(self.room.neighbors.values())` (reduced modulo the length, so every
oracle denotes a valid `random.choice`). -/
def enemyMove (pick : Nat) (e : Enemy) : Enemy :=
  let ns := roomNeighbors e.room
  if ns.isEmpty then e
  else { e with room := (ns.getD (pick % ns.length) ("", e.room)).2 }

/-- Loop body of `Game._enemy_actions` in the embedded revision, processing
the remaining enemies at position `i` onward while threading the player's
current hit points.  A dead enemy is skipped (`continue`); an enemy sharing
the player's room hits the player and the message reports the hit points
right after that blow; otherwise, when the oracle's coin flip for this enemy
says so (`random.random() < 0.5`), the enemy wanders.  Returns the player's
final hit points, the updated enemy list and the printed lines. -/
def enemyActionsAux (room : String) (o : Nat → Bool × Nat) :
    Nat → Int → List Enemy → Int × List Enemy × List String
  | _, hp, [] => (hp, [], [])
  | i, hp, e :: rest =>
      if e.isAlive = false then
        let r := enemyActionsAux room o (i + 1) hp rest
        (r.1, e :: r.2.1, r.2.2)
      else if e.room == room then
        let r := enemyActionsAux room o (i + 1) (hp - e.atk) rest
        (r.1, e :: r.2.1,
          ("The " ++ e.name ++ " hits you! You have " ++ toString (hp - e.atk) ++ " hp.") :: r.2.2)
      else if (o i).1 then
        let r := enemyActionsAux room o (i + 1) hp rest
        (r.1, enemyMove (o i).2 e :: r.2.1, r.2.2)
      else
        let r := enemyActionsAux room o (i + 1) hp rest
        (r.1, e :: r.2.1, r.2.2)

/-- `Game._enemy_actions`: the player's room is read through `self.player`
and does not change during the phase. -/
def enemyActions (g : GameState) (o : Nat → Bool × Nat) : GameState × List String :=
  let r := enemyActionsAux g.player.room o 0 g.player.hp g.enemies
  ({ g with player := { g.player with hp := r.1 }, enemies := r.2.1 }, r.2.2)

/-- Whitespace characters stripped by Python's `str.strip()` with no
argument: space, tab, newline, carriage return, vertical tab, form feed. -/
def isSpaceChar (c : Char) : Bool :=
  c = ' ' || c = '\t' || c = '\n' || c = '\r' || c = '\x0b' || c = '\x0c'

/-- Python's `str.strip()`: drop leading and trailing whitespace. -/
def pyStrip (s : String) : String :=
  String.mk (((s.data.dropWhile isSpaceChar).reverse.dropWhile isSpaceChar).reverse)

/-- Python's `str.lower()` on a single character, for the ASCII range: the
commands, directions and role names the program compares against are all
ASCII, so the Unicode cases of `str.lower()` never make a difference to a
comparison. -/
def lowerChar (c : Char) : Char :=
  if 65 ≤ c.toNat ∧ c.toNat ≤ 90 then Char.ofNat (c.toNat + 32) else c

/-- Python's `str.lower()`. -/
def pyLower (s : String) : String :=
  String.mk (s.data.map lowerChar)

/-- Test `cmd.startswith("go ")` from `Game._process_command`, computed on
the character data of the command. -/
def startsWithGo (cmd : String) : Bool :=
  match cmd.data with
  | 'g' :: 'o' :: ' ' :: _ => true
  | _ => false

/-- Everything after the first space of a character list;
`cmd.split(" ", 1)[1]` in the source.  It is only evaluated under the
`startswith("go ")` guard, which guarantees a space exists and that the
first one is the space of `"go "`. -/
def afterFirstSpace : List Char → List Char
  | [] => []
  | c :: rest => if c = ' ' then rest else afterFirstSpace rest

/-- Messages printed when the victory and defeat checks of `Game.play`
fire. -/
def victoryMsg : String := "You defeated all enemies. Victory!"

/-- Message printed by the defeat check after the loop of `Game.play`. -/
def defeatMsg : String := "You have been defeated..."

/-- Victory condition of `Game.play`:
`all(not e.is_alive() for e in self.enemies)`. -/
def allDead (es : List Enemy) : Bool :=
  es.all (fun e => e.isAlive = false)

/-- `Game._process_command` of the embedded revision, on the already trimmed
and lowercased command line.  Returns the new state, the printed lines and
the `running` flag (`False` exactly for `quit` and `exit`). -/
def processCommand (g : GameState) (cmd : String) : GameState × List String × Bool :=
  if startsWithGo cmd then
    ((movePlayer g (String.mk (afterFirstSpace cmd.data))).1,
      (movePlayer g (String.mk (afterFirstSpace cmd.data))).2, true)
  else if cmd == "attack" then ((attack g).1, (attack g).2, true)
  else if cmd == "look" then (g, describeRoom g, true)
  else if cmd == "stats" then (g, statsLines g.player, true)
  else if cmd == "help" then
    (g, ["Commands: go <direction>, attack, look, stats, help, quit"], true)
  else if cmd == "quit" || cmd == "exit" then (g, [], false)
  else (g, ["Unknown command. Type \"help\"."], true)

/-- How the loop of `Game.play` ended: the player broke out with
`quit`/`exit`; the victory check fired; the `player.hp > 0` loop condition
failed; or `input("> ")` hit end of input and raised an uncaught
`EOFError`. -/
inductive LoopExit where
  | quitExit
  | victoryExit
  | hpExit
  | crashExit
deriving DecidableEq, Repr

/-- Tail of one loop iteration of `Game.play` after the command phase: the
turn counter is incremented (`self.turn += 1`) and, from the second turn on
(`if self.turn > 1`), the enemy phase runs with the oracle's randomness for
that turn number. -/
def phaseStep (oracle : Nat → Nat → Bool × Nat) (g1 : GameState) : GameState × List String :=
  if g1.turn + 1 > 1 then
    enemyActions { g1 with turn := g1.turn + 1 } (oracle (g1.turn + 1))
  else ({ g1 with turn := g1.turn + 1 }, [])

/-- The `while running and self.player.hp > 0` loop of `Game.play`,
structurally recursive on the remaining input lines.  Each iteration
describes the room, reads a command (stripped and lowercased), processes it,
breaks on `quit`/`exit`, runs the turn increment and gated enemy phase
(`phaseStep`), then checks victory.  Returns the state at loop exit, all
printed lines and the exit kind. -/
def playLoop (oracle : Nat → Nat → Bool × Nat) :
    GameState → List String → GameState × List String × LoopExit
  | g, [] =>
      if g.player.hp ≤ 0 then (g, [], LoopExit.hpExit)
      else (g, describeRoom g, LoopExit.crashExit)
  | g, line :: rest =>
      if g.player.hp ≤ 0 then (g, [], LoopExit.hpExit)
      else
        let pc := processCommand g (pyLower (pyStrip line))
        if pc.2.2 = false then (pc.1, describeRoom g ++ pc.2.1, LoopExit.quitExit)
        else
          let ea := phaseStep oracle pc.1
          if allDead ea.1.enemies then
            (ea.1, describeRoom g ++ pc.2.1 ++ ea.2 ++ [victoryMsg], LoopExit.victoryExit)
          else
            let cont := playLoop oracle ea.1 rest
            (cont.1, describeRoom g ++ pc.2.1 ++ ea.2 ++ cont.2.1, cont.2.2)

/-- `Game.play` after the welcome banner: run the loop, then the post-loop
defeat check `if self.player.hp <= 0` prints the defeat message.  On the
end-of-input exit the `EOFError` propagates out of `play`, so the post-loop
check never runs. -/
def play (oracle : Nat → Nat → Bool × Nat) (g : GameState) (input : List String) :
    GameState × List String × LoopExit :=
  let r := playLoop oracle g input
  if r.2.2 = LoopExit.crashExit then r
  else if r.1.player.hp ≤ 0 then (r.1, r.2.1 ++ [defeatMsg], r.2.2)
  else r

/-- Name prompt loop of `Game._create_player`: re-prompt while the stripped
name is empty; end of input raises an uncaught `EOFError`, modelled by
`none`. -/
def readName : List String → Option (String × List String)
  | [] => none
  | line :: rest =>
      let nm := pyStrip line
      if nm = "" then readName rest else some (nm, rest)

/-- Class prompt loop of `Game._create_player`: re-prompt while the stripped,
lowercased answer is not one of the three roles; `none` models the uncaught
`EOFError` on end of input. -/
def readRole : List String → Option (String × List String)
  | [] => none
  | line :: rest =>
      let rl := pyLower (pyStrip line)
      if rl = "warrior" ∨ rl = "wizard" ∨ rl = "rogue" then some (rl, rest)
      else readRole rest

/-- Starting stats per role (`stats` table in `_create_player`). -/
def roleStats : String → Option (Int × Int)
  | "warrior" => some (15, 3)
  | "wizard" => some (10, 4)
  | "rogue" => some (12, 3)
  | _ => none

/-- `Game._create_player`: read a name and a role, look up the stats and
start the player in the entrance room.  `none` models the uncaught
`EOFError` when either prompt hits end of input. -/
def createPlayer (input : List String) : Option (Character × List String) :=
  match readName input with
  | none => none
  | some (nm, r1) =>
      match readRole r1 with
      | none => none
      | some (rl, r2) =>
          match roleStats rl with
          | none => none
          | some s =>
              some ({ name := nm, role := rl, hp := s.1, atk := s.2, room := "entrance" }, r2)

/-- A whole session, `Game()` followed by `Game().play()`: create the player
from the input lines (end of input during creation is the same uncaught
`EOFError` as in the loop), spawn the enemies, run the loop on the remaining
lines. -/
def session (oracle : Nat → Nat → Bool × Nat) (input : List String) : LoopExit :=
  match createPlayer input with
  | none => LoopExit.crashExit
  | some p => (play oracle { player := p.1, enemies := spawnEnemies, turn := 0 } p.2).2.2

/-! Concrete states used by witnesses and counterexamples. -/

/-- An oracle whose coin always says "do not wander". -/
def flipNone : Nat → Nat → Bool × Nat := fun _ _ => (false, 0)

/-- The warrior of the spec's sample scenario. -/
def heroEx : Character :=
  { name := "Hero", role := "warrior", hp := 15, atk := 3, room := "entrance" }

/-- Session state right after creating `heroEx`: the start of a real game. -/
def gEx0 : GameState := { player := heroEx, enemies := spawnEnemies, turn := 0 }

/-- The sample game after `go north`: the player stands in the hall with the
goblin. -/
def gExHall : GameState :=
  { player := { heroEx with room := "hall" }, enemies := spawnEnemies, turn := 0 }

/-- A sample state one blow away from victory: a lone goblin with 3 hp shares
the hall with the warrior. -/
def gExVict : GameState :=
  { player := { heroEx with room := "hall" },
    enemies := [{ name := "Goblin", hp := 3, atk := 2, room := "hall" }], turn := 0 }

/-- A sample state one enemy phase away from defeat: the warrior is down to
1 hp in the goblin's room. -/
def gExLow : GameState :=
  { player := { heroEx with room := "hall", hp := 1 }, enemies := spawnEnemies, turn := 0 }

/-- A dead goblin already left in the enemy list. -/
def deadGoblin : Enemy := { name := "Goblin", hp := 0, atk := 2, room := "hall" }

/-- A sample mid-game state: the goblin is dead but still listed, a living
skeleton has wandered into the hall with the player. -/
def gExDead : GameState :=
  { player := { heroEx with room := "hall" },
    enemies := [deadGoblin, { name := "Skeleton", hp := 5, atk := 2, room := "hall" }],
    turn := 4 }

/-- Total damage the enemy phase deals to the player: the sum of the attack
values of the living enemies sharing the player's room (each such enemy
strikes once; dead or absent enemies contribute nothing). -/
def phaseDamage (room : String) (es : List Enemy) : Int :=
  (es.map (fun e => if isTarget room e then e.atk else 0)).sum

/-- A printed line that is neither the victory nor the defeat announcement:
every line produced by room descriptions, command processing and the enemy
phase is of this kind, so the two announcements can only come from the
checks of `Game.play` themselves. -/
def offLimits (m : String) : Prop := m ≠ victoryMsg ∧ m ≠ defeatMsg

/-- Membership in the set of rooms constructed by `Game._build_rooms`. -/
def validRoom (r : String) : Prop :=
  r = "entrance" ∨ r = "hall" ∨ r = "armory" ∨ r = "library"

/-- Every located entity of the state sits in one of the four constructed
rooms. -/
def validState (g : GameState) : Prop :=
  validRoom g.player.room ∧ ∀ e ∈ g.enemies, validRoom e.room

/-- The states a session can reach: a freshly created game, and the closure
under the state-changing operations of the turn loop (command processing
with any command line, the enemy phase with any randomness, and the turn
counter increment). -/
inductive Reachable : GameState → Prop
  | init : ∀ p rest input, createPlayer input = some (p, rest) →
      Reachable { player := p, enemies := spawnEnemies, turn := 0 }
  | cmd : ∀ g c, Reachable g → Reachable (processCommand g c).1
  | phase : ∀ g o, Reachable g → Reachable (enemyActions g o).1
  | tick : ∀ g, Reachable g → Reachable { g with turn := g.turn + 1 }

/-! Parsing lemmas for the `go` command. -/

/-- A command of the form `"go " ++ dir` always passes the
`startswith("go ")` test. -/
theorem startsWithGo_goSpace (dir : String) : startsWithGo ("go " ++ dir) = true := rfl

/-- Splitting `"go " ++ dir` at its first space yields exactly `dir`: the
guaranteed space of `"go "` is the first space of the command. -/
theorem afterFirstSpace_goSpace (dir : String) :
    String.mk (afterFirstSpace ("go " ++ dir).data) = dir := rfl

/-- Dispatch of a well-formed movement command: `_process_command` hands the
text after the first space to `_move_player` verbatim. -/
theorem processCommand_goSpace (g : GameState) (dir : String) :
    processCommand g ("go " ++ dir) = ((movePlayer g dir).1, (movePlayer g dir).2, true) := rfl

/-- C1: processing `go <direction>` moves the player exactly to the neighbor
the direction maps to when the direction is a key of the current room's
neighbor mapping (everything else in the state is unchanged and the move is
confirmed), and leaves the whole state unchanged with a failure message when
it is not. -/
theorem c1_go_direction (g : GameState) (dir : String) :
    (∀ r, neighbor g.player.room dir = some r →
        processCommand g ("go " ++ dir) =
          ({ g with player := { g.player with room := r } }, ["You move " ++ dir ++ "."], true)) ∧
    (neighbor g.player.room dir = none →
        processCommand g ("go " ++ dir) = (g, ["You can't go that way."], true)) := by
  rw [processCommand_goSpace]
  constructor
  · intro r hr
    simp [movePlayer, hr]
  · intro hr
    simp [movePlayer, hr]

/-- Witness for C1 at the start of the sample game: `go north` from the
entrance lands in the hall, `go up` does not move at all. -/
theorem c1_go_direction_witness :
    processCommand gEx0 ("go " ++ "north") =
      ({ gEx0 with player := { gEx0.player with room := "hall" } },
        ["You move " ++ "north" ++ "."], true) ∧
    processCommand gEx0 ("go " ++ "up") = (gEx0, ["You can't go that way."], true) :=
  ⟨(c1_go_direction gEx0 "north").1 "hall" rfl, (c1_go_direction gEx0 "up").2 rfl⟩

/-- C10: the bare input `go` is dispatched as an unknown command (not as an
invalid direction) with the state untouched, and only a command starting
with `go ` (with the space) reaches `_move_player`, which receives the text
after the first space verbatim. -/
theorem c10_bare_go (g : GameState) :
    processCommand g "go" = (g, ["Unknown command. Type \"help\"."], true) ∧
    ("Unknown command. Type \"help\"." : String) ≠ "You can't go that way." ∧
    (∀ dir, processCommand g ("go " ++ dir) = ((movePlayer g dir).1, (movePlayer g dir).2, true)) := by
  refine ⟨rfl, by decide, fun dir => processCommand_goSpace g dir⟩

/-- Witness for C10 at the start of the sample game. -/
theorem c10_bare_go_witness :
    processCommand gEx0 "go" = (gEx0, ["Unknown command. Type \"help\"."], true) :=
  (c10_bare_go gEx0).1

/-! Lemmas on the attack routine. -/

/-- When no entry of the enemy list is a living co-located enemy, `_attack`
leaves the list untouched and prints the no-target message. -/
theorem attackEnemies_noTarget (atk : Int) (room : String) (es : List Enemy)
    (h : ∀ e ∈ es, isTarget room e = false) :
    attackEnemies atk room es = (es, ["No enemy to attack."]) := by
  induction es with
  | nil => rfl
  | cons e rest ih =>
      have he := h e (by simp)
      have ih2 := ih (fun x hx => h x (by simp [hx]))
      simp [attackEnemies, he, ih2]

/-- Splitting the enemy list at its first living co-located entry, `_attack`
hits exactly that entry for the attacker's value and leaves every other
entry unchanged, printing the remaining hit points and, exactly when the
target drops to 0 or below, the defeat line. -/
theorem attackEnemies_firstTarget (atk : Int) (room : String)
    (pre : List Enemy) (e : Enemy) (post : List Enemy)
    (hpre : ∀ x ∈ pre, isTarget room x = false) (he : isTarget room e = true) :
    attackEnemies atk room (pre ++ e :: post) =
      (pre ++ { e with hp := e.hp - atk } :: post,
        ("You hit the " ++ e.name ++ "! It has " ++ toString (e.hp - atk) ++ " hp left.") ::
          (if e.hp - atk ≤ 0 then ["The " ++ e.name ++ " is defeated!"] else [])) := by
  induction pre with
  | nil => simp [attackEnemies, he]
  | cons x xs ih =>
      have hx := hpre x (by simp)
      have ih2 := ih (fun y hy => hpre y (by simp [hy]))
      simp [attackEnemies, hx, ih2]

/-- C2: when the enemy list splits as `pre ++ e :: post` with every entry of
`pre` failing the living-and-co-located test and `e` passing it (so `e` is
the first living enemy of the player's room in iteration order), `attack`
subtracts exactly the player's attack value from `e`'s hit points, changes
no other enemy and not the player, reports the remaining hit points, and
reports defeat exactly when they drop to 0 or below. -/
theorem c2_attack_first_living (g : GameState) (pre : List Enemy) (e : Enemy) (post : List Enemy)
    (hsplit : g.enemies = pre ++ e :: post)
    (hpre : ∀ x ∈ pre, isTarget g.player.room x = false)
    (he : isTarget g.player.room e = true) :
    attack g =
      ({ g with enemies := pre ++ { e with hp := e.hp - g.player.atk } :: post },
        ("You hit the " ++ e.name ++ "! It has " ++ toString (e.hp - g.player.atk) ++ " hp left.") ::
          (if e.hp - g.player.atk ≤ 0 then ["The " ++ e.name ++ " is defeated!"] else [])) := by
  unfold attack
  rw [hsplit, attackEnemies_firstTarget g.player.atk g.player.room pre e post hpre he]

/-- Witness for C2 in the sample game: attacking from the hall hits the
goblin (the first living enemy there), 5 hp drop to 2, the skeleton is
untouched and no defeat line is printed. -/
theorem c2_attack_first_living_witness :
    attack gExHall =
      ({ gExHall with enemies :=
          [{ name := "Goblin", hp := 2, atk := 2, room := "hall" },
           { name := "Skeleton", hp := 5, atk := 2, room := "armory" }] },
        ["You hit the Goblin! It has 2 hp left."]) := by
  have h := c2_attack_first_living gExHall []
      { name := "Goblin", hp := 5, atk := 2, room := "hall" }
      [{ name := "Skeleton", hp := 5, atk := 2, room := "armory" }]
      rfl (by intro x hx; simp at hx) rfl
  simpa using h

/-- C7 (amended): when no living enemy shares the player's room, `attack`
changes nothing — not the player, no enemy's hit points — and reports
"No enemy to attack." -/
theorem c7_attack_no_target (g : GameState)
    (h : ∀ e ∈ g.enemies, isTarget g.player.room e = false) :
    attack g = (g, ["No enemy to attack."]) := by
  unfold attack
  rw [attackEnemies_noTarget g.player.atk g.player.room g.enemies h]

/-- Witness for C7 at the start of the sample game: the entrance is empty,
so attacking changes nothing. -/
theorem c7_attack_no_target_witness : attack gEx0 = (gEx0, ["No enemy to attack."]) :=
  c7_attack_no_target gEx0 (by decide)

/-- Counterexample to C7 as stated: at the concrete empty-room state the
reported message is "No enemy to attack.", and the literal message "nothing
to attack" that the claim quotes is not among the reported lines. -/
theorem c7_message_counterexample :
    (attack gEx0).2 = ["No enemy to attack."] ∧
      "nothing to attack" ∉ (attack gEx0).2 := by
  decide

/-! Lemmas on dead enemies and the enemy phase. -/

/-- An enemy with hit points at or below zero fails the target filter of
`_living_enemies_in_room`. -/
theorem isTarget_of_dead (room : String) (e : Enemy) (h : e.hp ≤ 0) :
    isTarget room e = false := by
  simp [isTarget, Enemy.isAlive, not_lt.2 h]

/-- A successful target filter means the enemy is alive and co-located. -/
theorem isTarget_true_iff (room : String) (e : Enemy) :
    isTarget room e = true ↔ e.room = room ∧ 0 < e.hp := by
  simp [isTarget, Enemy.isAlive]

/-- The attack routine keeps every entry whose hit points are at or below
zero exactly as it is: dead enemies are never selected as targets. -/
theorem attackEnemies_dead_get (atk : Int) (room : String) (es : List Enemy)
    (i : Nat) (e : Enemy) (hi : es.get? i = some e) (hd : e.hp ≤ 0) :
    (attackEnemies atk room es).1.get? i = some e := by
  induction es generalizing i with
  | nil => simp at hi
  | cons x xs ih =>
      by_cases hx : isTarget room x = true
      · cases i with
        | zero =>
            simp only [List.get?] at hi
            injection hi with hi
            subst hi
            have := ((isTarget_true_iff room x).1 hx).2
            omega
        | succ n =>
            simp only [List.get?] at hi
            simp only [attackEnemies, hx, if_true]
            simpa using hi
      · have hx2 : isTarget room x = false := by revert hx; cases isTarget room x <;> simp
        cases i with
        | zero =>
            simp only [List.get?] at hi
            simp [attackEnemies, hx2, hi]
        | succ n =>
            simp only [List.get?] at hi
            simp only [attackEnemies, hx2]
            simpa using ih n hi

/-- The enemy phase keeps every dead entry exactly as it is: a dead enemy
neither strikes nor moves. -/
theorem enemyActionsAux_dead_get (room : String) (o : Nat → Bool × Nat)
    (es : List Enemy) (k : Nat) (hp : Int) (i : Nat) (e : Enemy)
    (hi : es.get? i = some e) (hd : e.hp ≤ 0) :
    (enemyActionsAux room o k hp es).2.1.get? i = some e := by
  induction es generalizing i k hp with
  | nil => simp at hi
  | cons x xs ih =>
      by_cases hal : x.isAlive = true
      · have hx0 : 0 < x.hp := by simpa [Enemy.isAlive] using hal
        cases i with
        | zero =>
            simp only [List.get?] at hi
            injection hi with hi
            subst hi
            omega
        | succ n =>
            simp only [List.get?] at hi
            by_cases hroom : (x.room == room) = true
            · simp only [enemyActionsAux, hal, hroom, if_true, Bool.not_true, if_false]
              simpa using ih (k + 1) (hp - x.atk) n hi
            · have hroom2 : (x.room == room) = false := by
                revert hroom; cases x.room == room <;> simp
              by_cases hf : (o k).1 = true
              · simp only [enemyActionsAux, hal, hroom2, hf, if_true, if_false]
                simpa using ih (k + 1) hp n hi
              · have hf2 : (o k).1 = false := by revert hf; cases (o k).1 <;> simp
                simp only [enemyActionsAux, hal, hroom2, hf2, if_false]
                simpa using ih (k + 1) hp n hi
      · have hal2 : x.isAlive = false := by revert hal; cases x.isAlive <;> simp
        cases i with
        | zero =>
            simp only [List.get?] at hi
            simp [enemyActionsAux, hal2, hi]
        | succ n =>
            simp only [List.get?] at hi
            simp only [enemyActionsAux, hal2]
            simpa using ih (k + 1) hp n hi

/-- The enemy phase ends with the player's hit points lowered by exactly the
attack values of the living co-located enemies. -/
theorem enemyActionsAux_hp (room : String) (o : Nat → Bool × Nat)
    (es : List Enemy) : ∀ (k : Nat) (hp : Int),
    (enemyActionsAux room o k hp es).1 = hp - phaseDamage room es := by
  induction es with
  | nil => intro k hp; simp [enemyActionsAux, phaseDamage]
  | cons x xs ih =>
      intro k hp
      by_cases hal : x.isAlive = true
      · by_cases hroom : (x.room == room) = true
        · have ht : isTarget room x = true := by simp [isTarget, hal, hroom]
          simp only [enemyActionsAux, hal, hroom, if_true, if_false]
          simp [ih (k + 1) (hp - x.atk), phaseDamage, ht]
          ring
        · have hroom2 : (x.room == room) = false := by
            revert hroom; cases x.room == room <;> simp
          have ht : isTarget room x = false := by simp [isTarget, hroom2]
          by_cases hf : (o k).1 = true
          · simp [enemyActionsAux, hal, hroom2, hf, ih (k + 1) hp, phaseDamage, ht]
          · have hf2 : (o k).1 = false := by revert hf; cases (o k).1 <;> simp
            simp [enemyActionsAux, hal, hroom2, hf2, ih (k + 1) hp, phaseDamage, ht]
      · have hal2 : x.isAlive = false := by revert hal; cases x.isAlive <;> simp
        have ht : isTarget room x = false := by simp [isTarget, Enemy.isAlive] at hal2 ⊢; omega
        simp [enemyActionsAux, hal2, ih (k + 1) hp, phaseDamage, ht]

/-- C5: an enemy whose hit points are at or below zero is inert everywhere:
the living-enemies query never returns it (so neither the room description
nor target selection ever lists it), `attack` leaves its entry untouched,
the enemy phase leaves its entry untouched (it neither strikes nor moves),
and the player only ever loses hit points to living co-located enemies. -/
theorem c5_dead_enemies_inert :
    (∀ es room e, e ∈ livingEnemiesInRoom es room → e.room = room ∧ 0 < e.hp) ∧
    (∀ es room e, e.hp ≤ 0 → e ∉ livingEnemiesInRoom es room) ∧
    (∀ g i e, g.enemies.get? i = some e → e.hp ≤ 0 →
        (attack g).1.enemies.get? i = some e) ∧
    (∀ g o i e, g.enemies.get? i = some e → e.hp ≤ 0 →
        (enemyActions g o).1.enemies.get? i = some e) ∧
    (∀ g o, (enemyActions g o).1.player.hp =
        g.player.hp - phaseDamage g.player.room g.enemies) := by
  refine ⟨?_, ?_, ?_, ?_, ?_⟩
  · intro es room e he
    have := List.of_mem_filter he
    exact (isTarget_true_iff room e).1 this
  · intro es room e hd he
    have := List.of_mem_filter he
    rw [isTarget_of_dead room e hd] at this
    exact Bool.false_ne_true this
  · intro g i e hi hd
    exact attackEnemies_dead_get g.player.atk g.player.room g.enemies i e hi hd
  · intro g o i e hi hd
    exact enemyActionsAux_dead_get g.player.room o g.enemies 0 g.player.hp i e hi hd
  · intro g o
    exact enemyActionsAux_hp g.player.room o g.enemies 0 g.player.hp

/-- Witness for C5 at the mid-game state with a dead goblin: after another
attack and another enemy phase the dead goblin's entry is exactly as it was,
and the phase costs the player exactly the skeleton's 2 attack. -/
theorem c5_dead_enemies_inert_witness :
    (attack gExDead).1.enemies.get? 0 = some deadGoblin ∧
    (enemyActions gExDead (flipNone 0)).1.enemies.get? 0 = some deadGoblin ∧
    (enemyActions gExDead (flipNone 0)).1.player.hp =
      gExDead.player.hp - phaseDamage gExDead.player.room gExDead.enemies :=
  ⟨c5_dead_enemies_inert.2.2.1 gExDead 0 deadGoblin rfl (by decide),
   c5_dead_enemies_inert.2.2.2.1 gExDead (flipNone 0) 0 deadGoblin rfl (by decide),
   c5_dead_enemies_inert.2.2.2.2 gExDead (flipNone 0)⟩

/-! String-shape helpers: a concatenation whose fixed prefix, suffix or
middle piece does not occur at the right place of a fixed target string
cannot equal that target.  They let us check, by computation on the fixed
pieces alone, that no line printed during a turn equals the victory or
defeat announcement of `Game.play`. -/

/-- A string starting with the fixed piece `p` differs from `z` when `z`
does not start with `p`. -/
theorem append_ne_of_take (p x z : String) (h : z.data.take p.data.length ≠ p.data) :
    p ++ x ≠ z := by
  intro he
  apply h
  rw [← he]
  exact List.take_left p.data x.data

/-- Same as `append_ne_of_take` for the shape `(p ++ x) ++ y`. -/
theorem append2_ne_of_take (p x y z : String) (h : z.data.take p.data.length ≠ p.data) :
    (p ++ x) ++ y ≠ z := by
  intro he
  apply h
  rw [← he]
  show ((p.data ++ x.data) ++ y.data).take p.data.length = p.data
  rw [List.append_assoc]
  exact List.take_left p.data (x.data ++ y.data)

/-- A string ending with the fixed piece `s` differs from `z` when `z` does
not end with `s`. -/
theorem append_ne_of_suffix_take (xs s z : String)
    (h : z.data.reverse.take s.data.length ≠ s.data.reverse) : xs ++ s ≠ z := by
  intro he
  apply h
  rw [← he]
  show ((xs ++ s).data).reverse.take s.data.length = s.data.reverse
  rw [show (xs ++ s).data = xs.data ++ s.data from rfl, List.reverse_append,
    ← List.length_reverse s.data]
  exact List.take_left s.data.reverse xs.data.reverse

/-- A string with the fixed middle piece `m` differs from `z` when `m` is
not an infix of `z`. -/
theorem append3_ne_of_mid (a m b z : String) (h : ¬ m.data <:+: z.data) :
    (a ++ m) ++ b ≠ z := by
  intro he
  exact h ⟨a.data, b.data, by rw [← he]; rfl⟩

/-! Every line printed inside a turn is distinct from the two announcements
of `Game.play`. -/

/-- Room descriptions never spell an announcement. -/
theorem roomDescription_offLimits (r : String) : offLimits (roomDescription r) := by
  unfold roomDescription
  split <;> exact ⟨by decide, by decide⟩

/-- Lines of `_describe_room` never spell an announcement. -/
theorem describeRoom_offLimits (g : GameState) (m : String) (hm : m ∈ describeRoom g) :
    offLimits m := by
  unfold describeRoom at hm
  rcases List.mem_cons.1 hm with rfl | hm
  · exact ⟨append2_ne_of_take _ _ _ _ (by decide), append2_ne_of_take _ _ _ _ (by decide)⟩
  rcases List.mem_cons.1 hm with rfl | hm
  · exact roomDescription_offLimits _
  rcases List.mem_append.1 hm with hm | hm
  · split at hm
    · simp at hm
    · rcases List.mem_singleton.1 hm with rfl
      exact ⟨append_ne_of_take _ _ _ (by decide), append_ne_of_take _ _ _ (by decide)⟩
  · rcases List.mem_map.1 hm with ⟨e, _, rfl⟩
    exact ⟨append2_ne_of_take _ _ _ _ (by decide), append2_ne_of_take _ _ _ _ (by decide)⟩

/-- Lines of `_move_player` never spell an announcement. -/
theorem movePlayer_offLimits (g : GameState) (d m : String)
    (hm : m ∈ (movePlayer g d).2) : offLimits m := by
  unfold movePlayer at hm
  split at hm <;> rcases List.mem_singleton.1 hm with rfl
  · exact ⟨append2_ne_of_take _ _ _ _ (by decide), append2_ne_of_take _ _ _ _ (by decide)⟩
  · exact ⟨by decide, by decide⟩

/-- Lines of `_attack` never spell an announcement. -/
theorem attackEnemies_offLimits (atk : Int) (room : String) (es : List Enemy) (m : String)
    (hm : m ∈ (attackEnemies atk room es).2) : offLimits m := by
  induction es with
  | nil =>
      rcases List.mem_singleton.1 hm with rfl
      exact ⟨by decide, by decide⟩
  | cons e rest ih =>
      by_cases he : isTarget room e = true
      · simp only [attackEnemies, he, if_true] at hm
        rcases List.mem_cons.1 hm with rfl | hm2
        · exact ⟨append_ne_of_suffix_take _ _ _ (by decide),
            append_ne_of_suffix_take _ _ _ (by decide)⟩
        · split at hm2
          · rcases List.mem_singleton.1 hm2 with rfl
            exact ⟨append_ne_of_suffix_take _ _ _ (by decide),
              append_ne_of_suffix_take _ _ _ (by decide)⟩
          · simp at hm2
      · have he2 : isTarget room e = false := by revert he; cases isTarget room e <;> simp
        simp only [attackEnemies, he2] at hm
        exact ih (by simpa using hm)

/-- Lines of `_show_stats` never spell an announcement. -/
theorem statsLines_offLimits (p : Character) (m : String) (hm : m ∈ statsLines p) :
    offLimits m := by
  rcases List.mem_cons.1 hm with rfl | hm
  · exact ⟨append3_ne_of_mid _ _ _ _ (by decide), append3_ne_of_mid _ _ _ _ (by decide)⟩
  rcases List.mem_singleton.1 hm with rfl
  exact ⟨append3_ne_of_mid _ _ _ _ (by decide), append3_ne_of_mid _ _ _ _ (by decide)⟩

/-- Lines of `_process_command` never spell an announcement. -/
theorem processCommand_offLimits (g : GameState) (c m : String)
    (hm : m ∈ (processCommand g c).2.1) : offLimits m := by
  unfold processCommand at hm
  split at hm
  · exact movePlayer_offLimits g _ m hm
  split at hm
  · exact attackEnemies_offLimits g.player.atk g.player.room g.enemies m hm
  split at hm
  · exact describeRoom_offLimits g m hm
  split at hm
  · exact statsLines_offLimits g.player m hm
  split at hm
  · rcases List.mem_singleton.1 hm with rfl
    exact ⟨by decide, by decide⟩
  split at hm
  · simp at hm
  · rcases List.mem_singleton.1 hm with rfl
    exact ⟨by decide, by decide⟩

/-- Lines of `_enemy_actions` never spell an announcement. -/
theorem enemyActionsAux_offLimits (room : String) (o : Nat → Bool × Nat) (es : List Enemy) :
    ∀ (k : Nat) (hp : Int) (m : String),
      m ∈ (enemyActionsAux room o k hp es).2.2 → offLimits m := by
  induction es with
  | nil => intro k hp m hm; simp [enemyActionsAux] at hm
  | cons x xs ih =>
      intro k hp m hm
      by_cases hal : x.isAlive = true
      · by_cases hroom : (x.room == room) = true
        · simp only [enemyActionsAux, hal, hroom, if_true, Bool.not_true, if_false] at hm
          rcases List.mem_cons.1 hm with rfl | hm2
          · exact ⟨append_ne_of_suffix_take _ _ _ (by decide),
              append_ne_of_suffix_take _ _ _ (by decide)⟩
          · exact ih (k + 1) (hp - x.atk) m hm2
        · have hroom2 : (x.room == room) = false := by
            revert hroom; cases x.room == room <;> simp
          by_cases hf : (o k).1 = true
          · simp only [enemyActionsAux, hal, hroom2, hf, if_true, if_false] at hm
            exact ih (k + 1) hp m hm
          · have hf2 : (o k).1 = false := by revert hf; cases (o k).1 <;> simp
            simp only [enemyActionsAux, hal, hroom2, hf2, if_false] at hm
            exact ih (k + 1) hp m hm
      · have hal2 : x.isAlive = false := by revert hal; cases x.isAlive <;> simp
        simp only [enemyActionsAux, hal2] at hm
        exact ih (k + 1) hp m (by simpa using hm)

/-! Preservation lemmas feeding the analysis of the loop of `Game.play`. -/

/-- The victory condition holds exactly when every listed enemy has hit
points at or below zero. -/
theorem allDead_iff (es : List Enemy) : allDead es = true ↔ ∀ e ∈ es, e.hp ≤ 0 := by
  simp only [allDead, List.all_eq_true, Enemy.isAlive]
  constructor <;> intro h e he <;> have h2 := h e he <;> revert h2 <;> simp

/-- The victory condition only looks at hit points: two enemy lists with the
same hit points in the same order agree on it. -/
theorem allDead_congr (es es' : List Enemy) (h : es.map Enemy.hp = es'.map Enemy.hp) :
    allDead es = allDead es' := by
  have key : ∀ (a b : List Enemy), a.map Enemy.hp = b.map Enemy.hp →
      (∀ e ∈ b, e.hp ≤ 0) → ∀ e ∈ a, e.hp ≤ 0 := by
    intro a b hab hb e he
    have hmem : e.hp ∈ a.map Enemy.hp := List.mem_map_of_mem _ he
    rw [hab] at hmem
    rcases List.mem_map.1 hmem with ⟨x, hx, hxe⟩
    exact hxe ▸ hb x hx
  cases hA : allDead es <;> cases hB : allDead es' <;> try rfl
  · have := (allDead_iff es).2 (key es es' h ((allDead_iff es').1 hB))
    rw [hA] at this
    exact absurd this (by simp)
  · have := (allDead_iff es').2 (key es' es h.symm ((allDead_iff es).1 hA))
    rw [hB] at this
    exact absurd this (by simp)

/-- Wandering never changes hit points. -/
theorem enemyMove_hp (p : Nat) (e : Enemy) : (enemyMove p e).hp = e.hp := by
  unfold enemyMove
  dsimp only
  split <;> rfl

/-- The enemy phase never changes any enemy's hit points. -/
theorem enemyActionsAux_hpMap (room : String) (o : Nat → Bool × Nat) (es : List Enemy) :
    ∀ (k : Nat) (hp : Int),
      ((enemyActionsAux room o k hp es).2.1).map Enemy.hp = es.map Enemy.hp := by
  induction es with
  | nil => intro k hp; rfl
  | cons x xs ih =>
      intro k hp
      by_cases hal : x.isAlive = true
      · by_cases hroom : (x.room == room) = true
        · simp [enemyActionsAux, hal, hroom, ih (k + 1) (hp - x.atk)]
        · have hroom2 : (x.room == room) = false := by
            revert hroom; cases x.room == room <;> simp
          by_cases hf : (o k).1 = true
          · simp [enemyActionsAux, hal, hroom2, hf, ih (k + 1) hp, enemyMove_hp]
          · have hf2 : (o k).1 = false := by revert hf; cases (o k).1 <;> simp
            simp [enemyActionsAux, hal, hroom2, hf2, ih (k + 1) hp]
      · have hal2 : x.isAlive = false := by revert hal; cases x.isAlive <;> simp
        simp [enemyActionsAux, hal2, ih (k + 1) hp]

/-- A room full of dead enemies deals no damage. -/
theorem phaseDamage_of_dead (room : String) (es : List Enemy) (h : ∀ e ∈ es, e.hp ≤ 0) :
    phaseDamage room es = 0 := by
  induction es with
  | nil => rfl
  | cons e rest ih =>
      have he := isTarget_of_dead room e (h e (by simp))
      have ih2 := ih (fun x hx => h x (List.mem_cons_of_mem _ hx))
      simp only [phaseDamage, List.map_cons, List.sum_cons, he, if_false] at ih2 ⊢
      simpa using ih2

/-- The turn increment and gated enemy phase never change any enemy's hit
points. -/
theorem phaseStep_hpMap (oracle : Nat → Nat → Bool × Nat) (g1 : GameState) :
    ((phaseStep oracle g1).1.enemies).map Enemy.hp = g1.enemies.map Enemy.hp := by
  unfold phaseStep
  split
  · exact enemyActionsAux_hpMap g1.player.room (oracle (g1.turn + 1)) g1.enemies 0 g1.player.hp
  · rfl

/-- The turn increment and gated enemy phase leave the victory condition as
it was. -/
theorem phaseStep_allDead (oracle : Nat → Nat → Bool × Nat) (g1 : GameState) :
    allDead (phaseStep oracle g1).1.enemies = allDead g1.enemies :=
  allDead_congr _ _ (phaseStep_hpMap oracle g1)

/-- With every enemy dead the enemy phase leaves the player's hit points
alone. -/
theorem phaseStep_hp_of_allDead (oracle : Nat → Nat → Bool × Nat) (g1 : GameState)
    (h : allDead g1.enemies = true) :
    (phaseStep oracle g1).1.player.hp = g1.player.hp := by
  unfold phaseStep
  split
  · show (enemyActionsAux g1.player.room _ 0 g1.player.hp g1.enemies).1 = g1.player.hp
    rw [enemyActionsAux_hp]
    have hz := phaseDamage_of_dead g1.player.room g1.enemies ((allDead_iff _).1 h)
    omega
  · rfl

/-- Lines of the gated enemy phase never spell an announcement. -/
theorem phaseStep_offLimits (oracle : Nat → Nat → Bool × Nat) (g1 : GameState) (m : String)
    (hm : m ∈ (phaseStep oracle g1).2) : offLimits m := by
  unfold phaseStep at hm
  split at hm
  · exact enemyActionsAux_offLimits g1.player.room _ g1.enemies 0 g1.player.hp m hm
  · simp at hm

/-- The state `_process_command` returns is the input state, a move of the
player, or the result of an attack. -/
theorem processCommand_cases (g : GameState) (c : String) :
    (processCommand g c).1 = g ∨
      (∃ d, (processCommand g c).1 = (movePlayer g d).1) ∨
      (processCommand g c).1 = (attack g).1 := by
  unfold processCommand
  split
  · exact Or.inr (Or.inl ⟨_, rfl⟩)
  split
  · exact Or.inr (Or.inr rfl)
  split
  · exact Or.inl rfl
  split
  · exact Or.inl rfl
  split
  · exact Or.inl rfl
  split
  · exact Or.inl rfl
  · exact Or.inl rfl

/-- Moving never changes the player's hit points. -/
theorem movePlayer_player_hp (g : GameState) (d : String) :
    (movePlayer g d).1.player.hp = g.player.hp := by
  unfold movePlayer
  split <;> rfl

/-- Moving never changes the enemy list. -/
theorem movePlayer_enemies (g : GameState) (d : String) :
    (movePlayer g d).1.enemies = g.enemies := by
  unfold movePlayer
  split <;> rfl

/-- Attacking never changes the player. -/
theorem attack_player (g : GameState) : (attack g).1.player = g.player := rfl

/-- No command changes the player's hit points. -/
theorem processCommand_player_hp (g : GameState) (c : String) :
    (processCommand g c).1.player.hp = g.player.hp := by
  rcases processCommand_cases g c with hc | ⟨d, hc⟩ | hc <;> rw [hc]
  · rw [movePlayer_player_hp]
  · rw [attack_player]

/-- Attacking with every enemy already dead changes nothing. -/
theorem attack_allDead (g : GameState) (h : allDead g.enemies = true) :
    (attack g).1.enemies = g.enemies := by
  have hnt := attackEnemies_noTarget g.player.atk g.player.room g.enemies
    (fun e he => isTarget_of_dead _ _ ((allDead_iff _).1 h e he))
  simp [attack, hnt]

/-- No command revives an enemy: once every enemy is dead, every enemy stays
dead through command processing. -/
theorem processCommand_allDead (g : GameState) (c : String) (h : allDead g.enemies = true) :
    allDead (processCommand g c).1.enemies = true := by
  rcases processCommand_cases g c with hc | ⟨d, hc⟩ | hc <;> rw [hc]
  · exact h
  · rw [movePlayer_enemies]; exact h
  · rw [attack_allDead g h]; exact h

/-- A list of lines that never spell the victory announcement does not
contain it. -/
theorem not_mem_vict (l : List String) (h : ∀ m ∈ l, offLimits m) : victoryMsg ∉ l :=
  fun hm => (h _ hm).1 rfl

/-- A list of lines that never spell the defeat announcement does not
contain it. -/
theorem not_mem_defeat (l : List String) (h : ∀ m ∈ l, offLimits m) : defeatMsg ∉ l :=
  fun hm => (h _ hm).2 rfl

/-! Branch equations of the loop of `Game.play`. -/

/-- End of input with the player already down: the loop condition fails. -/
theorem playLoop_nil_dead (oracle : Nat → Nat → Bool × Nat) (g : GameState)
    (hg : g.player.hp ≤ 0) : playLoop oracle g [] = (g, [], LoopExit.hpExit) := by
  simp [playLoop, hg]

/-- End of input with the player standing: the room is described, then the
blocking read raises `EOFError`. -/
theorem playLoop_nil_live (oracle : Nat → Nat → Bool × Nat) (g : GameState)
    (hg : ¬ g.player.hp ≤ 0) :
    playLoop oracle g [] = (g, describeRoom g, LoopExit.crashExit) := by
  simp [playLoop, hg]

/-- The loop condition fails before reading anything when the player is
down. -/
theorem playLoop_cons_dead (oracle : Nat → Nat → Bool × Nat) (g : GameState)
    (line : String) (rest : List String) (hg : g.player.hp ≤ 0) :
    playLoop oracle g (line :: rest) = (g, [], LoopExit.hpExit) := by
  simp [playLoop, hg]

/-- A turn whose command sets `running` to false breaks out right after the
command. -/
theorem playLoop_cons_quit (oracle : Nat → Nat → Bool × Nat) (g : GameState)
    (line : String) (rest : List String) (hg : ¬ g.player.hp ≤ 0)
    (hq : (processCommand g (pyLower (pyStrip line))).2.2 = false) :
    playLoop oracle g (line :: rest) =
      ((processCommand g (pyLower (pyStrip line))).1,
        describeRoom g ++ (processCommand g (pyLower (pyStrip line))).2.1,
        LoopExit.quitExit) := by
  simp [playLoop, hg, hq]

/-- A turn after which every enemy is dead prints the victory announcement
and breaks out. -/
theorem playLoop_cons_vict (oracle : Nat → Nat → Bool × Nat) (g : GameState)
    (line : String) (rest : List String) (hg : ¬ g.player.hp ≤ 0)
    (hr : (processCommand g (pyLower (pyStrip line))).2.2 = true)
    (hv : allDead (phaseStep oracle (processCommand g (pyLower (pyStrip line))).1).1.enemies
      = true) :
    playLoop oracle g (line :: rest) =
      ((phaseStep oracle (processCommand g (pyLower (pyStrip line))).1).1,
        describeRoom g ++ (processCommand g (pyLower (pyStrip line))).2.1 ++
          (phaseStep oracle (processCommand g (pyLower (pyStrip line))).1).2 ++ [victoryMsg],
        LoopExit.victoryExit) := by
  simp [playLoop, hg, hr, hv]

/-- An ordinary turn: the loop continues on the remaining input. -/
theorem playLoop_cons_cont (oracle : Nat → Nat → Bool × Nat) (g : GameState)
    (line : String) (rest : List String) (hg : ¬ g.player.hp ≤ 0)
    (hr : (processCommand g (pyLower (pyStrip line))).2.2 = true)
    (hv : allDead (phaseStep oracle (processCommand g (pyLower (pyStrip line))).1).1.enemies
      = false) :
    playLoop oracle g (line :: rest) =
      ((playLoop oracle (phaseStep oracle (processCommand g (pyLower (pyStrip line))).1).1 rest).1,
        describeRoom g ++ (processCommand g (pyLower (pyStrip line))).2.1 ++
          (phaseStep oracle (processCommand g (pyLower (pyStrip line))).1).2 ++
          (playLoop oracle (phaseStep oracle (processCommand g (pyLower (pyStrip line))).1).1
            rest).2.1,
        (playLoop oracle (phaseStep oracle (processCommand g (pyLower (pyStrip line))).1).1
          rest).2.2) := by
  simp [playLoop, hg, hr, hv]

/-- Complete behaviour of the loop of `Game.play`, by induction over the
input: the loop stops with `hpExit` exactly on a player at or below 0 hit
points; on every other exit the player is still standing; the victory
announcement is printed exactly on a `victoryExit`; the defeat announcement
is never printed inside the loop; and a `victoryExit` state has every enemy
dead. -/
theorem playLoop_spec (oracle : Nat → Nat → Bool × Nat) (input : List String) :
    ∀ g : GameState,
      ((playLoop oracle g input).2.2 = LoopExit.hpExit →
          (playLoop oracle g input).1.player.hp ≤ 0) ∧
      ((playLoop oracle g input).2.2 ≠ LoopExit.hpExit →
          0 < (playLoop oracle g input).1.player.hp) ∧
      (victoryMsg ∈ (playLoop oracle g input).2.1 ↔
          (playLoop oracle g input).2.2 = LoopExit.victoryExit) ∧
      defeatMsg ∉ (playLoop oracle g input).2.1 ∧
      ((playLoop oracle g input).2.2 = LoopExit.victoryExit →
          allDead (playLoop oracle g input).1.enemies = true) := by
  induction input with
  | nil =>
      intro g
      by_cases hg : g.player.hp ≤ 0
      · rw [playLoop_nil_dead oracle g hg]
        exact ⟨fun _ => hg, fun h => absurd rfl h, by simp, by simp, by simp⟩
      · rw [playLoop_nil_live oracle g hg]
        dsimp only
        refine ⟨by simp, fun _ => by omega, ?_, ?_, by simp⟩
        · constructor
          · intro hm
            exact absurd rfl (describeRoom_offLimits g _ hm).1
          · intro h; simp at h
        · exact not_mem_defeat _ (fun m hm => describeRoom_offLimits g m hm)
  | cons line rest ih =>
      intro g
      by_cases hg : g.player.hp ≤ 0
      · rw [playLoop_cons_dead oracle g line rest hg]
        exact ⟨fun _ => hg, fun h => absurd rfl h, by simp, by simp, by simp⟩
      · by_cases hq : (processCommand g (pyLower (pyStrip line))).2.2 = false
        · rw [playLoop_cons_quit oracle g line rest hg hq]
          dsimp only
          refine ⟨by simp, ?_, ?_, ?_, by simp⟩
          · intro _
            have := processCommand_player_hp g (pyLower (pyStrip line))
            omega
          · constructor
            · intro hm
              rcases List.mem_append.1 hm with hm | hm
              · exact absurd rfl (describeRoom_offLimits g _ hm).1
              · exact absurd rfl (processCommand_offLimits g _ _ hm).1
            · intro h; simp at h
          · intro hm
            rcases List.mem_append.1 hm with hm | hm
            · exact (describeRoom_offLimits g _ hm).2 rfl
            · exact (processCommand_offLimits g _ _ hm).2 rfl
        · have hr : (processCommand g (pyLower (pyStrip line))).2.2 = true := by
            revert hq; cases (processCommand g (pyLower (pyStrip line))).2.2 <;> simp
          by_cases hv : allDead
              (phaseStep oracle (processCommand g (pyLower (pyStrip line))).1).1.enemies = true
          · rw [playLoop_cons_vict oracle g line rest hg hr hv]
            dsimp only
            refine ⟨by simp, ?_, ?_, ?_, fun _ => hv⟩
            · intro _
              have h1 : allDead (processCommand g (pyLower (pyStrip line))).1.enemies = true := by
                rw [← phaseStep_allDead oracle (processCommand g (pyLower (pyStrip line))).1]
                exact hv
              have h2 := phaseStep_hp_of_allDead oracle
                (processCommand g (pyLower (pyStrip line))).1 h1
              have h3 := processCommand_player_hp g (pyLower (pyStrip line))
              omega
            · simp
            · intro hm
              rcases List.mem_append.1 hm with hm | hm
              · rcases List.mem_append.1 hm with hm | hm
                · rcases List.mem_append.1 hm with hm | hm
                  · exact (describeRoom_offLimits g _ hm).2 rfl
                  · exact (processCommand_offLimits g _ _ hm).2 rfl
                · exact (phaseStep_offLimits oracle _ _ hm).2 rfl
              · exact absurd (List.mem_singleton.1 hm) (by decide)
          · have hv2 : allDead
                (phaseStep oracle (processCommand g (pyLower (pyStrip line))).1).1.enemies
                = false := by
              revert hv
              cases allDead (phaseStep oracle (processCommand g (pyLower (pyStrip line))).1).1.enemies <;>
                simp
            rw [playLoop_cons_cont oracle g line rest hg hr hv2]
            dsimp only
            rcases ih (phaseStep oracle (processCommand g (pyLower (pyStrip line))).1).1 with
              ⟨iha, ihb, ihc, ihd, ihe⟩
            refine ⟨iha, ihb, ?_, ?_, ihe⟩
            · constructor
              · intro hm
                rcases List.mem_append.1 hm with hm | hm
                · rcases List.mem_append.1 hm with hm | hm
                  · rcases List.mem_append.1 hm with hm | hm
                    · exact absurd rfl (describeRoom_offLimits g _ hm).1
                    · exact absurd rfl (processCommand_offLimits g _ _ hm).1
                  · exact absurd rfl (phaseStep_offLimits oracle _ _ hm).1
                · exact ihc.1 hm
              · intro h
                exact List.mem_append.2 (Or.inr (ihc.2 h))
            · intro hm
              rcases List.mem_append.1 hm with hm | hm
              · rcases List.mem_append.1 hm with hm | hm
                · rcases List.mem_append.1 hm with hm | hm
                  · exact (describeRoom_offLimits g _ hm).2 rfl
                  · exact (processCommand_offLimits g _ _ hm).2 rfl
                · exact (phaseStep_offLimits oracle _ _ hm).2 rfl
              · exact ihd hm

/-- Relation between `play` and its loop: the post-loop defeat check of
`Game.play` appends the defeat announcement exactly when the loop ended on
the failed hit-point condition (the uncaught `EOFError` skips the check, but
it only ever fires with the player standing, and the quit and victory exits
also leave the player standing). -/
theorem play_shape (oracle : Nat → Nat → Bool × Nat) (g : GameState) (input : List String) :
    play oracle g input =
      if (playLoop oracle g input).2.2 = LoopExit.hpExit then
        ((playLoop oracle g input).1, (playLoop oracle g input).2.1 ++ [defeatMsg],
          (playLoop oracle g input).2.2)
      else playLoop oracle g input := by
  rcases playLoop_spec oracle input g with ⟨hsa, hsb, _, _, _⟩
  by_cases hE : (playLoop oracle g input).2.2 = LoopExit.hpExit
  · have hhp := hsa hE
    simp [play, hE, hhp]
  · have hhp := hsb hE
    by_cases hC : (playLoop oracle g input).2.2 = LoopExit.crashExit
    · simp [play, hC, hE]
    · simp only [play, hC, if_false, hE]
      rw [if_neg (by omega)]

/-- C3: a session ends in Victory (prints the victory announcement and stops
the loop with `victoryExit`) exactly when the all-enemies-dead check after
the enemy-phase slot of a non-quit turn holds: the announcement is printed
if and only if the loop ends on `victoryExit`; a `victoryExit` state has
every enemy dead; and conversely, whenever the check is reached with every
enemy dead (the player is standing and the turn's command did not set
`running` to false), the loop ends on `victoryExit` right there. -/
theorem c3_victory_iff (oracle : Nat → Nat → Bool × Nat) (g : GameState) (input : List String) :
    (victoryMsg ∈ (play oracle g input).2.1 ↔
        (play oracle g input).2.2 = LoopExit.victoryExit) ∧
    ((play oracle g input).2.2 = LoopExit.victoryExit →
        allDead (play oracle g input).1.enemies = true) ∧
    (∀ line rest, 0 < g.player.hp → allDead g.enemies = true →
        (processCommand g (pyLower (pyStrip line))).2.2 = true →
        (playLoop oracle g (line :: rest)).2.2 = LoopExit.victoryExit) := by
  rcases playLoop_spec oracle input g with ⟨hsa, hsb, hsc, hsd, hse⟩
  have hvd : victoryMsg ≠ defeatMsg := by decide
  have hexit : (play oracle g input).2.2 = (playLoop oracle g input).2.2 := by
    rw [play_shape oracle g input]
    by_cases hE : (playLoop oracle g input).2.2 = LoopExit.hpExit <;> simp [hE]
  have hstate : (play oracle g input).1 = (playLoop oracle g input).1 := by
    rw [play_shape oracle g input]
    by_cases hE : (playLoop oracle g input).2.2 = LoopExit.hpExit <;> simp [hE]
  have hmem : victoryMsg ∈ (play oracle g input).2.1 ↔
      victoryMsg ∈ (playLoop oracle g input).2.1 := by
    rw [play_shape oracle g input]
    by_cases hE : (playLoop oracle g input).2.2 = LoopExit.hpExit <;>
      simp [hE, List.mem_append, hvd]
  refine ⟨?_, ?_, ?_⟩
  · rw [hmem, hexit]
    exact hsc
  · intro h
    rw [hexit] at h
    rw [hstate]
    exact hse h
  · intro line rest h0 hAD hRun
    have h1 : allDead (processCommand g (pyLower (pyStrip line))).1.enemies = true :=
      processCommand_allDead g _ hAD
    have h2 : allDead
        (phaseStep oracle (processCommand g (pyLower (pyStrip line))).1).1.enemies = true := by
      rw [phaseStep_allDead]
      exact h1
    rw [playLoop_cons_vict oracle g line rest (by omega) hRun h2]

/-- Witness for C3: in the sample state with a lone 3-hp goblin in the
player's room, one `attack` kills every enemy and the session prints the
victory announcement. -/
theorem c3_victory_iff_witness :
    victoryMsg ∈ (play flipNone gExVict ["attack"]).2.1 :=
  (c3_victory_iff flipNone gExVict ["attack"]).1.2 (by decide)

/-- C4: a session prints the defeat announcement exactly when the loop ended
on the failed hit-point condition, which happens exactly when the final hit
points are at or below zero (the player's hit points only drop during the
enemy phase, so the condition is only ever detected at the check after it);
and Victory takes precedence: a `victoryExit` session has the player
standing and never prints the defeat announcement. -/
theorem c4_defeat_iff (oracle : Nat → Nat → Bool × Nat) (g : GameState) (input : List String) :
    (defeatMsg ∈ (play oracle g input).2.1 ↔
        (play oracle g input).2.2 = LoopExit.hpExit) ∧
    ((play oracle g input).2.2 = LoopExit.hpExit ↔
        (play oracle g input).1.player.hp ≤ 0) ∧
    ((play oracle g input).2.2 = LoopExit.victoryExit →
        0 < (play oracle g input).1.player.hp ∧ defeatMsg ∉ (play oracle g input).2.1) := by
  rcases playLoop_spec oracle input g with ⟨hsa, hsb, hsc, hsd, hse⟩
  have hexit : (play oracle g input).2.2 = (playLoop oracle g input).2.2 := by
    rw [play_shape oracle g input]
    by_cases hE : (playLoop oracle g input).2.2 = LoopExit.hpExit <;> simp [hE]
  have hstate : (play oracle g input).1 = (playLoop oracle g input).1 := by
    rw [play_shape oracle g input]
    by_cases hE : (playLoop oracle g input).2.2 = LoopExit.hpExit <;> simp [hE]
  have hdef : defeatMsg ∈ (play oracle g input).2.1 ↔
      (playLoop oracle g input).2.2 = LoopExit.hpExit := by
    rw [play_shape oracle g input]
    by_cases hE : (playLoop oracle g input).2.2 = LoopExit.hpExit <;>
      simp [hE, List.mem_append, hsd]
  have hiff : (playLoop oracle g input).2.2 = LoopExit.hpExit ↔
      (playLoop oracle g input).1.player.hp ≤ 0 := by
    constructor
    · exact hsa
    · intro h
      by_cases hE : (playLoop oracle g input).2.2 = LoopExit.hpExit
      · exact hE
      · have := hsb hE
        omega
  refine ⟨?_, ?_, ?_⟩
  · rw [hexit]
    exact hdef
  · rw [hexit, hstate]
    exact hiff
  · intro h
    rw [hexit] at h
    have hne : (playLoop oracle g input).2.2 ≠ LoopExit.hpExit := by
      rw [h]; decide
    constructor
    · rw [hstate]
      exact hsb hne
    · intro hm
      exact hne (hdef.1 hm)

/-- Witness for C4: the warrior at 1 hp who stands in the goblin's room and
looks around twice is struck in the second turn's enemy phase and the
session prints the defeat announcement. -/
theorem c4_defeat_iff_witness :
    defeatMsg ∈ (play flipNone gExLow ["look", "look"]).2.1 :=
  (c4_defeat_iff flipNone gExLow ["look", "look"]).1.2 (by decide)

/-- C6: a `quit` (or `exit`) turn ends the session at once: the state is
returned exactly as it was before the command (no enemy acts, nobody's hit
points or room change), only the room description printed at the top of the
turn is emitted, and neither announcement is among the printed lines. -/
theorem c6_quit_immediate (oracle : Nat → Nat → Bool × Nat) (g : GameState)
    (line : String) (rest : List String)
    (hq : pyLower (pyStrip line) = "quit" ∨ pyLower (pyStrip line) = "exit")
    (hp0 : 0 < g.player.hp) :
    play oracle g (line :: rest) = (g, describeRoom g, LoopExit.quitExit) ∧
    victoryMsg ∉ describeRoom g ∧ defeatMsg ∉ describeRoom g := by
  have hpc : processCommand g (pyLower (pyStrip line)) = (g, [], false) := by
    rcases hq with hq | hq <;> rw [hq] <;> rfl
  have hloop := playLoop_cons_quit oracle g line rest (by omega) (by rw [hpc])
  rw [hpc] at hloop
  simp only [List.append_nil] at hloop
  have hplay : play oracle g (line :: rest) = (g, describeRoom g, LoopExit.quitExit) := by
    rw [play_shape, hloop]
    simp [hp0]
  exact ⟨hplay, not_mem_vict _ (fun m hm => describeRoom_offLimits g m hm),
    not_mem_defeat _ (fun m hm => describeRoom_offLimits g m hm)⟩

/-- Witness for C6: quitting at the very first prompt returns the untouched
starting state. -/
theorem c6_quit_immediate_witness :
    play flipNone gEx0 ["quit"] = (gEx0, describeRoom gEx0, LoopExit.quitExit) :=
  (c6_quit_immediate flipNone gEx0 "quit" [] (Or.inl (by decide)) (by decide)).1

/-- C8 (amended): an end-of-input condition at any interactive prompt makes
the program terminate abnormally through the uncaught `EOFError` that
`input()` raises — it is not treated as an implicit quit.  This holds at the
name and class prompts (`createPlayer` returning `none`) and at the per-turn
command prompt (the loop reaching empty input with the player standing). -/
theorem c8_eof_crashes (oracle : Nat → Nat → Bool × Nat) :
    (∀ input, createPlayer input = none → session oracle input = LoopExit.crashExit) ∧
    (∀ g : GameState, 0 < g.player.hp →
        playLoop oracle g [] = (g, describeRoom g, LoopExit.crashExit)) ∧
    session oracle [] = LoopExit.crashExit := by
  refine ⟨?_, ?_, rfl⟩
  · intro input h
    simp [session, h]
  · intro g h
    exact playLoop_nil_live oracle g (by omega)

/-- Witness for C8 (amended): the empty input stream crashes the session at
the name prompt. -/
theorem c8_eof_crashes_witness : session flipNone [] = LoopExit.crashExit :=
  (c8_eof_crashes flipNone).1 [] rfl

/-- Counterexample to C8 as stated: with no input at all the session ends in
the crash exit (the uncaught `EOFError`), which is not the quit exit the
claim promises. -/
theorem c8_eof_counterexample :
    session flipNone [] = LoopExit.crashExit ∧ LoopExit.crashExit ≠ LoopExit.quitExit :=
  ⟨rfl, by decide⟩

/-! Room-closure lemmas for C9. -/

/-- A successful association-list lookup comes from an entry of the list. -/
theorem lookup_mem (d : String) (l : List (String × String)) (b : String)
    (h : List.lookup d l = some b) : ∃ k, (k, b) ∈ l := by
  induction l with
  | nil => simp [List.lookup] at h
  | cons x xs ih =>
      rcases x with ⟨k, v⟩
      cases hd : d == k
      · simp only [List.lookup, hd] at h
        rcases ih h with ⟨k2, hk⟩
        exact ⟨k2, List.mem_cons_of_mem _ hk⟩
      · simp only [List.lookup, hd] at h
        injection h with h
        exact ⟨k, by simp [h]⟩

/-- Every edge built by `_build_rooms` points at one of the four constructed
rooms. -/
theorem roomNeighbors_valid (r : String) (p : String × String) (h : p ∈ roomNeighbors r) :
    validRoom p.2 := by
  unfold roomNeighbors at h
  split at h
  · simp at h
    simp [validRoom, h]
  · simp at h
    rcases h with h | h | h <;> simp [validRoom, h]
  · simp at h
    simp [validRoom, h]
  · simp at h
    simp [validRoom, h]
  · simp at h

/-- A successful neighbor lookup lands in one of the four constructed
rooms. -/
theorem neighbor_valid (r d r2 : String) (h : neighbor r d = some r2) : validRoom r2 := by
  rcases lookup_mem d (roomNeighbors r) r2 h with ⟨k, hk⟩
  exact roomNeighbors_valid r (k, r2) hk

/-- Wandering keeps an enemy inside the four constructed rooms. -/
theorem enemyMove_valid (p : Nat) (e : Enemy) (h : validRoom e.room) :
    validRoom (enemyMove p e).room := by
  unfold enemyMove
  dsimp only
  split
  · exact h
  · rename_i hne
    have hne2 : roomNeighbors e.room ≠ [] := by
      intro hnil
      rw [hnil] at hne
      exact hne rfl
    have hlt : p % (roomNeighbors e.room).length < (roomNeighbors e.room).length :=
      Nat.mod_lt _ (List.length_pos.2 hne2)
    have hmem : (roomNeighbors e.room).getD (p % (roomNeighbors e.room).length) ("", e.room)
        ∈ roomNeighbors e.room := by
      rw [List.getD_eq_get?, List.get?_eq_get hlt, Option.getD_some]
      exact List.get_mem _ _ hlt
    exact roomNeighbors_valid e.room _ hmem

/-- The enemy phase keeps every enemy inside the four constructed rooms. -/
theorem enemyActionsAux_valid (room : String) (o : Nat → Bool × Nat) (es : List Enemy) :
    ∀ (k : Nat) (hp : Int), (∀ e ∈ es, validRoom e.room) →
      ∀ e ∈ (enemyActionsAux room o k hp es).2.1, validRoom e.room := by
  induction es with
  | nil => intro k hp _ e he; simp [enemyActionsAux] at he
  | cons x xs ih =>
      intro k hp hv e he
      have hvx := hv x (by simp)
      have hvxs : ∀ y ∈ xs, validRoom y.room := fun y hy => hv y (by simp [hy])
      by_cases hal : x.isAlive = true
      · by_cases hroom : (x.room == room) = true
        · simp only [enemyActionsAux, hal, hroom, if_true, Bool.not_true, if_false] at he
          rcases List.mem_cons.1 he with rfl | he2
          · exact hvx
          · exact ih (k + 1) (hp - x.atk) hvxs e he2
        · have hroom2 : (x.room == room) = false := by
            revert hroom; cases x.room == room <;> simp
          by_cases hf : (o k).1 = true
          · simp only [enemyActionsAux, hal, hroom2, hf, if_true, if_false] at he
            rcases List.mem_cons.1 he with rfl | he2
            · exact enemyMove_valid _ x hvx
            · exact ih (k + 1) hp hvxs e he2
          · have hf2 : (o k).1 = false := by revert hf; cases (o k).1 <;> simp
            simp only [enemyActionsAux, hal, hroom2, hf2, if_false] at he
            rcases List.mem_cons.1 he with rfl | he2
            · exact hvx
            · exact ih (k + 1) hp hvxs e he2
      · have hal2 : x.isAlive = false := by revert hal; cases x.isAlive <;> simp
        simp only [enemyActionsAux, hal2] at he
        rcases List.mem_cons.1 (by simpa using he) with rfl | he2
        · exact hvx
        · exact ih (k + 1) hp hvxs e he2

/-- Attacking never changes any enemy's room. -/
theorem attackEnemies_roomMap (atk : Int) (room : String) (es : List Enemy) :
    ((attackEnemies atk room es).1).map Enemy.room = es.map Enemy.room := by
  induction es with
  | nil => rfl
  | cons e rest ih =>
      by_cases he : isTarget room e = true
      · simp [attackEnemies, he]
      · have he2 : isTarget room e = false := by revert he; cases isTarget room e <;> simp
        simp [attackEnemies, he2, ih]

/-- Attacking keeps the state inside the four constructed rooms. -/
theorem attack_valid (g : GameState) (h : validState g) : validState (attack g).1 := by
  refine ⟨h.1, ?_⟩
  intro e he
  have hmem : e.room ∈ ((attack g).1.enemies).map Enemy.room := List.mem_map_of_mem _ he
  have hmap : ((attack g).1.enemies).map Enemy.room = g.enemies.map Enemy.room := by
    simp [attack, attackEnemies_roomMap]
  rw [hmap] at hmem
  rcases List.mem_map.1 hmem with ⟨x, hx, hxe⟩
  exact hxe ▸ h.2 x hx

/-- Moving keeps the state inside the four constructed rooms. -/
theorem movePlayer_valid (g : GameState) (d : String) (h : validState g) :
    validState (movePlayer g d).1 := by
  unfold movePlayer
  split
  · rename_i r hr
    exact ⟨neighbor_valid _ _ _ hr, h.2⟩
  · exact h

/-- Command processing keeps the state inside the four constructed rooms. -/
theorem processCommand_valid (g : GameState) (c : String) (h : validState g) :
    validState (processCommand g c).1 := by
  rcases processCommand_cases g c with hc | ⟨d, hc⟩ | hc <;> rw [hc]
  · exact h
  · exact movePlayer_valid g d h
  · exact attack_valid g h

/-- The whole enemy phase keeps the state inside the four constructed
rooms. -/
theorem enemyActions_valid (g : GameState) (o : Nat → Bool × Nat) (h : validState g) :
    validState (enemyActions g o).1 :=
  ⟨h.1, enemyActionsAux_valid g.player.room o g.enemies 0 g.player.hp h.2⟩

/-- A created character starts in the entrance room. -/
theorem createPlayer_start (input : List String) (p : Character) (rest : List String)
    (h : createPlayer input = some (p, rest)) : p.room = "entrance" := by
  unfold createPlayer at h
  rcases hn : readName input with _ | ⟨nm, r1⟩ <;> rw [hn] at h <;> dsimp only at h
  · exact absurd h (by simp)
  rcases hr : readRole r1 with _ | ⟨rl, r2⟩ <;> rw [hr] at h <;> dsimp only at h
  · exact absurd h (by simp)
  rcases hs : roleStats rl with _ | s <;> rw [hs] at h <;> dsimp only at h
  · exact absurd h (by simp)
  simp only [Option.some.injEq, Prod.mk.injEq] at h
  rw [← h.1]

/-- The loop of `Game.play` keeps the state inside the four constructed
rooms. -/
theorem playLoop_valid (oracle : Nat → Nat → Bool × Nat) (input : List String) :
    ∀ g : GameState, validState g → validState (playLoop oracle g input).1 := by
  induction input with
  | nil =>
      intro g h
      by_cases hg : g.player.hp ≤ 0
      · rw [playLoop_nil_dead oracle g hg]; exact h
      · rw [playLoop_nil_live oracle g hg]; exact h
  | cons line rest ih =>
      intro g h
      by_cases hg : g.player.hp ≤ 0
      · rw [playLoop_cons_dead oracle g line rest hg]; exact h
      · have h1 : validState (processCommand g (pyLower (pyStrip line))).1 :=
          processCommand_valid g _ h
        have h2 : validState (phaseStep oracle (processCommand g (pyLower (pyStrip line))).1).1 := by
          unfold phaseStep
          split
          · exact enemyActions_valid _ _ ⟨h1.1, h1.2⟩
          · exact ⟨h1.1, h1.2⟩
        by_cases hq : (processCommand g (pyLower (pyStrip line))).2.2 = false
        · rw [playLoop_cons_quit oracle g line rest hg hq]; exact h1
        · have hr : (processCommand g (pyLower (pyStrip line))).2.2 = true := by
            revert hq; cases (processCommand g (pyLower (pyStrip line))).2.2 <;> simp
          by_cases hv : allDead
              (phaseStep oracle (processCommand g (pyLower (pyStrip line))).1).1.enemies = true
          · rw [playLoop_cons_vict oracle g line rest hg hr hv]; exact h2
          · have hv2 : allDead
                (phaseStep oracle (processCommand g (pyLower (pyStrip line))).1).1.enemies
                = false := by
              revert hv
              cases allDead (phaseStep oracle (processCommand g (pyLower (pyStrip line))).1).1.enemies <;>
                simp
            rw [playLoop_cons_cont oracle g line rest hg hr hv2]
            exact ih _ h2

/-- C9: every reachable state keeps the player and every enemy in one of the
four rooms built at startup.  A fresh session starts that way, every edge of
the constructed graph points back into the four rooms (so player movement
and enemy wandering cannot leave them), and the invariant is preserved by
command processing, the enemy phase, the turn counter, and hence by the
whole loop. -/
theorem c9_rooms_closed :
    (∀ g, Reachable g → validState g) ∧
    (∀ r d r2, neighbor r d = some r2 → validRoom r2) ∧
    (∀ oracle g input, validState g → validState (playLoop oracle g input).1) := by
  refine ⟨?_, neighbor_valid, fun oracle g input h => playLoop_valid oracle input g h⟩
  intro g hg
  induction hg with
  | init p rest input h =>
      refine ⟨?_, ?_⟩
      · show validRoom p.room
        rw [createPlayer_start input p rest h]
        simp [validRoom]
      · intro e he
        simp only [spawnEnemies, List.mem_cons, List.not_mem_nil, or_false] at he
        rcases he with rfl | rfl <;> simp [validRoom]
  | cmd g c _ ih => exact processCommand_valid g c ih
  | phase g o _ ih => exact enemyActions_valid g o ih
  | tick g _ ih => exact ⟨ih.1, ih.2⟩

/-- Witness for C9: the starting state of the sample game is reachable and
valid, and the entrance's north edge lands in a constructed room. -/
theorem c9_rooms_closed_witness :
    validState gEx0 ∧ validRoom "hall" :=
  ⟨c9_rooms_closed.1 gEx0
      (Reachable.init heroEx [] ["Hero", "warrior"] (by decide)),
    c9_rooms_closed.2.1 "entrance" "north" "hall" rfl⟩

end SimpleMud
